import Mathlib

/-!
Shallow embedding of the promise library (src/src/core.comments.js) in Lean 4.

The source is the core of a Promises/A+ style implementation: a promise record
with fields _deferredState, _state (0 pending, 1 fulfilled, 2 rejected,
3 adopted), _value and _deferreds, together with the resolution procedure
(resolve, reject, finale, handle, handleResolved, doResolve) and the ES6
combinator layer (Promise.resolve, Promise.all, Promise.race, Promise.any,
Promise.allSettled).

Modelling choices, each noted again at the definition it concerns:
- JS values are the inductive JsVal; foreign objects carry a ThenKind that
  describes what reading their then property does (absent, raises, callable).
- The heap of promise objects is a total function from Nat identifiers to
  records; allocation bumps a next counter.
- The asap scheduler is a FIFO queue of pending handleResolved tasks; a task
  is the pair captured by the closure in handleResolved.
- JS functions supplied by user code are modelled as Lean functions returning
  Except (an error value means the call raised), matching tryCallOne; an
  executor or foreign then capability is an FnBehavior: the sequence of calls
  it makes to its two completion callbacks, and whether it then raises.
- The recursion resolve -> doResolve -> resolve (nested foreign thenables) is
  bounded by explicit fuel; with fuel 0 the machine is returned unchanged.
  Every theorem below is stated at a successor fuel value.
- The combinators all / race / any are additionally modelled as folds over a
  settlement schedule: a list of events (i, outcome) meaning that input i
  settles with that outcome, listed in real-time completion order.  Each
  event applies exactly the handler the combinator registers in the source.
-/

/-- What reading the then property of a foreign (non promise) object does:
it can be absent (undefined), the read itself can raise, or it can yield a
callable capability, identified by an opaque code interpreted by an
environment of behaviors. -/
inductive ThenKind where
  | absentThen
  | throwsOnRead (msg : String)
  | callableThen (code : Nat)
deriving Repr, DecidableEq

/-- JS values as far as this library inspects them: primitives, arrays,
promise instances of this implementation (by heap id), error objects, the
status records produced by allSettled, and foreign objects described by
their then property. -/
inductive JsVal where
  | undef
  | nullV
  | boolV (b : Bool)
  | numV (n : Int)
  | strV (s : String)
  | promiseV (id : Nat)
  | arrV (elems : List JsVal)
  | typeErrorV (msg : String)
  | aggregateErrorV (msg : String) (errors : List JsVal)
  | recordV (status : String) (payload : JsVal)
  | objV (thenKind : ThenKind)
deriving Repr

/-- A user supplied handler: called with one argument, it either returns a
value or raises one (tryCallOne in the source catches the raise). -/
def HandlerFn : Type := JsVal → Except JsVal JsVal

/-- The Handler record from the source: optional onFulfilled and onRejected
callbacks (null when the argument was not a function) and the downstream
promise id. -/
structure Handler where
  onFulfilled : Option HandlerFn
  onRejected : Option HandlerFn
  promise : Nat

/-- One promise object: _deferredState, _state, _value, _deferreds.  The
source stores zero, one or many deferreds in a specialized way
(null / single / array); here a single list with the same order is used,
with deferredState kept as the source keeps it. -/
structure PromiseRec where
  deferredState : Nat
  state : Nat
  value : JsVal
  deferreds : List Handler

/-- A freshly constructed promise: pending, value null, no deferreds. -/
def initRec : PromiseRec :=
  { deferredState := 0, state := 0, value := .nullV, deferreds := [] }

/-- The whole machine: the heap of promise objects (total over Nat ids, ids
at or above next are unallocated and read as initRec), the allocation
counter, and the asap queue of scheduled handleResolved tasks. -/
structure Machine where
  heap : Nat → PromiseRec
  next : Nat
  queue : List (Nat × Handler)

/-- The empty machine. -/
def emptyM : Machine :=
  { heap := fun _ => initRec, next := 0, queue := [] }

/-- Overwrite one promise record. -/
def setRec (m : Machine) (s : Nat) (r : PromiseRec) : Machine :=
  { m with heap := fun j => if j = s then r else m.heap j }

/-- Allocate a fresh pending promise (new Promise(noop)); returns the new
machine and the id. -/
def allocM (m : Machine) : Machine × Nat :=
  ({ heap := fun j => if j = m.next then initRec else m.heap j,
     next := m.next + 1, queue := m.queue }, m.next)

/-- The _state field of a promise. -/
def stateOf (m : Machine) (s : Nat) : Nat := (m.heap s).state

/-- The _value field of a promise. -/
def valueOf (m : Machine) (s : Nat) : JsVal := (m.heap s).value

/-- The adoption dereference loop at the top of handle:
while (self._state === 3) self = self._value.  Bounded by fuel; an adopted
promise always stores a promise value, the defensive branch returns self. -/
def derefA : Nat → Machine → Nat → Nat
  | 0, _, s => s
  | Nat.succ f, m, s =>
    if (m.heap s).state = 3 then
      match (m.heap s).value with
      | .promiseV j => derefA f m j
      | _ => s
    else s

/-- handle(self, deferred) from the source: dereference the adoption chain,
then either store the deferred on a still pending promise (the 0 / 1 / many
branches on _deferredState) or, on a settled promise, schedule the
handleResolved task on the asap queue.  Promise._onHandle is null here. -/
def handleM (fuel : Nat) (m : Machine) (s0 : Nat) (d : Handler) : Machine :=
  let s := derefA fuel m s0
  let r := m.heap s
  if r.state = 0 then
    if r.deferredState = 0 then
      setRec m s { r with deferredState := 1, deferreds := [d] }
    else if r.deferredState = 1 then
      setRec m s { r with deferredState := 2, deferreds := r.deferreds ++ [d] }
    else
      setRec m s { r with deferreds := r.deferreds ++ [d] }
  else
    { m with queue := m.queue ++ [(s, d)] }

/-- finale(self): hand every stored deferred to handle, in registration
order, then clear _deferreds.  The source branches on _deferredState 1 and 2
and does the same handle then clear in both; with list storage this is one
fold. -/
def finaleM (fuel : Nat) (m : Machine) (s : Nat) : Machine :=
  let r := m.heap s
  if r.deferredState = 0 then m
  else
    let m1 := r.deferreds.foldl (fun acc d => handleM fuel acc s d) m
    setRec m1 s { m1.heap s with deferreds := [] }

/-- The tail of resolve: self._state = 1; self._value = newValue;
finale(self). -/
def fulfillM (fuel : Nat) (m : Machine) (s : Nat) (v : JsVal) : Machine :=
  finaleM fuel (setRec m s { m.heap s with state := 1, value := v }) s

/-- reject(self, newValue): self._state = 2; self._value = newValue;
finale(self).  Promise._onReject is null here.  Note the source never guards
reject; exactly-once settlement comes from the doResolve latch of callers. -/
def rejectM (fuel : Nat) (m : Machine) (s : Nat) (v : JsVal) : Machine :=
  finaleM fuel (setRec m s { m.heap s with state := 2, value := v }) s

/-- The adoption branch of resolve: self._state = 3; self._value = newValue;
finale(self). -/
def adoptM (fuel : Nat) (m : Machine) (s : Nat) (j : Nat) : Machine :=
  finaleM fuel (setRec m s { m.heap s with state := 3, value := .promiseV j }) s

/-- One call an executor makes to one of its two completion callbacks. -/
inductive CallKind where
  | succeedCall (v : JsVal)
  | failCall (r : JsVal)

/-- The synchronous behavior of an executor function or of a foreign then
capability: the calls it makes to the two callbacks it was given, in order,
and, when thenThrows is some e, a raise of e after those calls (tryCallTwo
catches it and reports IS_ERROR). -/
structure FnBehavior where
  calls : List CallKind
  thenThrows : Option JsVal

/-- The pair of wrapped callbacks created by doResolve, processing a call
sequence: each callback first checks the shared done flag and returns
silently when it is set; otherwise it sets done and runs resolve
(respectively reject) on the promise.  Parametrized by what resolve and
reject do so it can be stated once for every promise and fuel. -/
def runLatchG (resolver rejecter : Machine → JsVal → Machine) :
    Bool × Machine → List CallKind → Bool × Machine
  | acc, [] => acc
  | (done, m), c :: cs =>
    if done then runLatchG resolver rejecter (done, m) cs
    else
      match c with
      | .succeedCall v => runLatchG resolver rejecter (true, resolver m v) cs
      | .failCall r => runLatchG resolver rejecter (true, rejecter m r) cs

/-- doResolve(fn, promise): run fn with the two latched callbacks; when fn
raised and no callback had been called, treat the raise as a rejection
(if (!done && res === IS_ERROR) { done = true; reject(promise, LAST_ERROR) }). -/
def doResolveG (resolver rejecter : Machine → JsVal → Machine)
    (m : Machine) (beh : FnBehavior) : Machine :=
  let res := runLatchG resolver rejecter (false, m) beh.calls
  match beh.thenThrows with
  | some e => if res.1 then res.2 else rejecter res.2 e
  | none => res.2

/-- resolve(self, newValue) from the source, structurally recursive on fuel:
1. newValue === self rejects with the self resolution TypeError;
2. for object or function values, read then (getThen catches a raising
   getter and reports it, which rejects);
3. a value of this implementation with the prototype then is adopted;
4. a callable foreign then is run through doResolve bound to the value;
5. anything else fulfills with the value directly.
Arrays, error objects and records are object-like with no then property, so
they fall through to the fulfill branch exactly as in the source. -/
def resolveF : Nat → (Nat → FnBehavior) → Machine → Nat → JsVal → Machine
  | 0, _, m, _, _ => m
  | Nat.succ fl, tb, m, s, v =>
    match v with
    | .promiseV j =>
      if j = s then
        rejectM (Nat.succ fl) m s
          (.typeErrorV "A promise cannot be resolved with itself.")
      else adoptM (Nat.succ fl) m s j
    | .objV .absentThen => fulfillM (Nat.succ fl) m s (.objV .absentThen)
    | .objV (.throwsOnRead msg) => rejectM (Nat.succ fl) m s (.strV msg)
    | .objV (.callableThen code) =>
      doResolveG (fun m1 v1 => resolveF fl tb m1 s v1)
        (fun m1 r1 => rejectM fl m1 s r1) m (tb code)
    | w => fulfillM (Nat.succ fl) m s w

/-- doResolve specialized to a concrete promise: the latched callbacks call
resolve(promise, value) and reject(promise, reason). -/
def doResolveF (fuel : Nat) (tb : Nat → FnBehavior) (m : Machine) (p : Nat)
    (beh : FnBehavior) : Machine :=
  doResolveG (fun m1 v1 => resolveF fuel tb m1 p v1)
    (fun m1 r1 => rejectM fuel m1 p r1) m beh

/-- new Promise(fn): allocate a pending promise and run doResolve(fn, it).
The source also rejects non-function arguments synchronously; an FnBehavior
is a function by construction. -/
def newPromiseF (fuel : Nat) (tb : Nat → FnBehavior) (m : Machine)
    (beh : FnBehavior) : Machine × Nat :=
  let a := allocM m
  (doResolveF fuel tb a.1 a.2 beh, a.2)

/-- The body of the asap callback in handleResolved, run on a scheduled task
(self, deferred): pick onFulfilled or onRejected by the settled state; a
missing callback passes the outcome through to the deferred promise; an
installed callback is run by tryCallOne, a raise rejects the deferred
promise with the raised reason, a normal return resolves it with the
returned value. -/
def runTask (fuel : Nat) (tb : Nat → FnBehavior) (m : Machine)
    (t : Nat × Handler) : Machine :=
  let r := m.heap t.1
  let cb := if r.state = 1 then t.2.onFulfilled else t.2.onRejected
  match cb with
  | none =>
    if r.state = 1 then resolveF fuel tb m t.2.promise r.value
    else rejectM fuel m t.2.promise r.value
  | some f =>
    match f r.value with
    | .error e => rejectM fuel m t.2.promise e
    | .ok ret => resolveF fuel tb m t.2.promise ret

/-- An argument passed to then: omitted, present but not callable (any plain
value, for example a string or a number), or callable. -/
inductive ThenArg where
  | omitted
  | value (v : JsVal)
  | callable (f : HandlerFn)

/-- The typeof check in the Handler constructor:
typeof onFulfilled === 'function' ? onFulfilled : null. -/
def toCb : ThenArg → Option HandlerFn
  | .callable f => some f
  | _ => none

/-- new Handler(onFulfilled, onRejected, promise). -/
def mkHandler (a b : ThenArg) (p : Nat) : Handler :=
  { onFulfilled := toCb a, onRejected := toCb b, promise := p }

/-- Promise.prototype.then on a native promise: allocate the result promise,
register the handler pair through handle, return the new promise.  The
safeThen fallback for subclass receivers is outside this model. -/
def thenM (fuel : Nat) (m : Machine) (s : Nat) (a b : ThenArg) : Machine × Nat :=
  let al := allocM m
  (handleM fuel al.1 s (mkHandler a b al.2), al.2)

/-- The six memoized promises of the ES6 layer (TRUE, FALSE, NULL, UNDEFINED,
ZERO, EMPTYSTRING), allocated in source order as ids 0 to 5.  valuePromise
makes a noop promise and sets _state = 1 and _value directly. -/
def es6InitM : Machine :=
  { heap := fun j =>
      if j = 0 then { deferredState := 0, state := 1, value := .boolV true, deferreds := [] }
      else if j = 1 then { deferredState := 0, state := 1, value := .boolV false, deferreds := [] }
      else if j = 2 then { deferredState := 0, state := 1, value := .nullV, deferreds := [] }
      else if j = 3 then { deferredState := 0, state := 1, value := .undef, deferreds := [] }
      else if j = 4 then { deferredState := 0, state := 1, value := .numV 0, deferreds := [] }
      else if j = 5 then { deferredState := 0, state := 1, value := .strV "", deferreds := [] }
      else initRec,
    next := 6, queue := [] }

/-- Ids of the memoized promises, in source allocation order. -/
def idTRUE : Nat := 0
def idFALSE : Nat := 1
def idNULL : Nat := 2
def idUNDEFINED : Nat := 3
def idZERO : Nat := 4
def idEMPTYSTRING : Nat := 5

/-- valuePromise(value): a fresh promise with _state = 1 and _value set
directly (no resolution procedure, no finale). -/
def valuePromiseM (m : Machine) (v : JsVal) : Machine × Nat :=
  let a := allocM m
  (setRec a.1 a.2 { a.1.heap a.2 with state := 1, value := v }, a.2)

/-- Promise.resolve(value) from the ES6 layer:
1. a value that is already a Promise instance is returned unchanged;
2. the six memoized scalars return the cached promises;
3. an object or function value has its then read inside try: a raising
   getter yields new Promise((resolve, reject) => reject(ex)); a callable
   then yields new Promise(then.bind(value));
4. everything else (including object-likes with no then) goes through
   valuePromise. -/
def promiseResolve (fuel : Nat) (tb : Nat → FnBehavior) (m : Machine)
    (v : JsVal) : Machine × Nat :=
  match v with
  | .promiseV id => (m, id)
  | .nullV => (m, idNULL)
  | .undef => (m, idUNDEFINED)
  | .boolV true => (m, idTRUE)
  | .boolV false => (m, idFALSE)
  | .numV 0 => (m, idZERO)
  | .strV "" => (m, idEMPTYSTRING)
  | .objV (.callableThen code) => newPromiseF fuel tb m (tb code)
  | .objV (.throwsOnRead msg) =>
    newPromiseF fuel tb m { calls := [.failCall (.strV msg)], thenThrows := none }
  | w => valuePromiseM m w

/-- The outcome with which a promise eventually settles. -/
inductive POutcome where
  | fulfilledO (v : JsVal)
  | rejectedO (r : JsVal)
deriving Repr

/-- The shared exactly-once settlement of a combinator promise: the first
settle wins, later ones are ignored (the done flag of the doResolve latch
wrapping the executor of the combinator). -/
def latchSettle (st : Option POutcome) (o : POutcome) : Option POutcome :=
  match st with
  | some _ => st
  | none => some o

/-- The closure state of the executor of Promise.all: the latched settlement
of the output promise, the args array being overwritten in place, and the
remaining counter. -/
structure AllState where
  settled : Option POutcome
  args : List JsVal
  remaining : Nat

/-- res(i, val) of Promise.all once input i has produced the plain settled
value val: args[i] = val; if (--remaining === 0) resolve(args). -/
def allRes (st : AllState) (i : Nat) (v : JsVal) : AllState :=
  let args1 := st.args.set i v
  let rem1 := st.remaining - 1
  if rem1 = 0 then
    { settled := latchSettle st.settled (.fulfilledO (.arrV args1)),
      args := args1, remaining := rem1 }
  else
    { st with args := args1, remaining := rem1 }

/-- The rejection handler of Promise.all: reject(reason) on the output
latch, ignoring which input rejected. -/
def allReject (st : AllState) (r : JsVal) : AllState :=
  { st with settled := latchSettle st.settled (.rejectedO r) }

/-- One settlement event reaching Promise.all: input i fulfilling feeds
res(i, value), input i rejecting feeds reject(reason). -/
def allStep (st : AllState) (ev : Nat × POutcome) : AllState :=
  match ev.2 with
  | .fulfilledO v => allRes st ev.1 v
  | .rejectedO r => allReject st r

/-- The executor state of Promise.all right after its synchronous prologue:
empty input resolves immediately with the empty array, otherwise remaining
is the input length and args starts as the input array. -/
def allInit (xs : List JsVal) : AllState :=
  if xs.length = 0 then
    { settled := some (.fulfilledO (.arrV [])), args := xs, remaining := 0 }
  else
    { settled := none, args := xs, remaining := xs.length }

/-- Promise.all(xs) observed through a settlement schedule: fold the events,
in real-time completion order, over the executor state. -/
def allRunE (xs : List JsVal) (evs : List (Nat × POutcome)) : AllState :=
  evs.foldl allStep (allInit xs)

/-- The closure state of the executor of Promise.any: the output latch, the
hasResolved flag of resolveOnce, and the rejectionReasons array that
rejectionCheck pushes onto in arrival order. -/
structure AnyState where
  settled : Option POutcome
  hasResolved : Bool
  rejectionReasons : List JsVal

/-- resolveOnce(value) of Promise.any. -/
def anyResolveOnce (st : AnyState) (v : JsVal) : AnyState :=
  if st.hasResolved then st
  else
    { st with hasResolved := true, settled := latchSettle st.settled (.fulfilledO v) }

/-- rejectionCheck(reason) of Promise.any: push the reason (in completion
order, the source does not index by input position) and, when every input
has rejected, reject with the AggregateError over the accumulated list. -/
def anyRejectionCheck (n : Nat) (st : AnyState) (r : JsVal) : AnyState :=
  let rs := st.rejectionReasons ++ [r]
  if rs.length = n then
    { st with
      rejectionReasons := rs
      settled := latchSettle st.settled
        (.rejectedO (.aggregateErrorV "All promises were rejected" rs)) }
  else
    { st with rejectionReasons := rs }

/-- One settlement event reaching Promise.any. -/
def anyStep (n : Nat) (st : AnyState) (ev : Nat × POutcome) : AnyState :=
  match ev.2 with
  | .fulfilledO v => anyResolveOnce st v
  | .rejectedO r => anyRejectionCheck n st r

/-- The executor state of Promise.any after its synchronous prologue: empty
input rejects immediately with the empty AggregateError. -/
def anyInit (n : Nat) : AnyState :=
  if n = 0 then
    { settled := some (.rejectedO (.aggregateErrorV "All promises were rejected" [])),
      hasResolved := false, rejectionReasons := [] }
  else
    { settled := none, hasResolved := false, rejectionReasons := [] }

/-- Promise.any over n inputs observed through a settlement schedule. -/
def anyRunE (n : Nat) (evs : List (Nat × POutcome)) : AnyState :=
  evs.foldl (anyStep n) (anyInit n)

/-- One settlement event reaching Promise.race: every input is wired as
Promise.resolve(value).then(resolve, reject), so whichever settles first
wins the output latch. -/
def raceStepE (st : Option POutcome) (ev : Nat × POutcome) : Option POutcome :=
  latchSettle st ev.2

/-- Promise.race(xs) observed through a settlement schedule.  A schedule is
valid for xs when every event index names an input, so for an empty xs the
only valid schedule is empty and the latch stays pending. -/
def raceRunE (xs : List JsVal) (evs : List (Nat × POutcome)) : Option POutcome :=
  evs.foldl raceStepE none

/-- onSettledFulfill(value) of the allSettled helpers. -/
def onSettledFulfillD (v : JsVal) : JsVal := .recordV "fulfilled" v

/-- onSettledReject(reason) of the allSettled helpers. -/
def onSettledRejectD (r : JsVal) : JsVal := .recordV "rejected" r

/-- What mapAllSettled produces for one input when it returns: either an
immediate fulfilled record (plain value path), the promise
item.then(onSettledFulfill, onSettledReject) for a native promise item, or
the wrapped foreign thenable path. -/
inductive SettledMapped where
  | recordNow (rec : JsVal)
  | promiseThen (id : Nat)
  | thenableWrapped (code : Nat)
deriving Repr

/-- mapAllSettled(item) from the source.  The crucial detail: for an
object-like item that is not a native promise, the read var then = item.then
is NOT inside any try/catch, so a raising then getter raises out of
mapAllSettled itself; Except.error models that raise.  Arrays, error objects
and records are object-like with then undefined and fall through to
onSettledFulfill(item), as do primitives. -/
def mapAllSettledD (item : JsVal) : Except JsVal SettledMapped :=
  match item with
  | .promiseV id => .ok (.promiseThen id)
  | .objV (.throwsOnRead msg) => .error (.strV msg)
  | .objV (.callableThen code) => .ok (.thenableWrapped code)
  | .objV .absentThen => .ok (.recordNow (onSettledFulfillD (.objV .absentThen)))
  | w => .ok (.recordNow (onSettledFulfillD w))

/-- The synchronous prologue of Promise.allSettled(iterable):
iterableToArray(iterable).map(mapAllSettled).  The map runs outside any
promise executor, so a raise from mapAllSettled escapes Promise.allSettled
synchronously; the Except.error result models that escape.  On success the
mapped list is handed to Promise.all. -/
def allSettledMapD (items : List JsVal) : Except JsVal (List SettledMapped) :=
  items.mapM mapAllSettledD

/-- A value that is neither a promise of this implementation nor a foreign
thenable (and whose then read cannot raise): resolution fulfills with it
directly.  Used to state pass-through conclusions. -/
def isPlainish : JsVal → Bool
  | .promiseV _ => false
  | .objV (.throwsOnRead _) => false
  | .objV (.callableThen _) => false
  | _ => true

/-- A trivial environment of foreign then behaviors: every capability makes
no call and returns.  Used to instantiate theorems on concrete inputs. -/
def tb0 : Nat → FnBehavior := fun _ => { calls := [], thenThrows := none }

/-- A concrete handler callback that always raises the string boom. -/
def cbBoom : HandlerFn := fun _ => .error (.strV "boom")

/-- A concrete deferred: raising success handler, no failure handler,
downstream promise 9. -/
def dBoom : Handler := { onFulfilled := some cbBoom, onRejected := none, promise := 9 }

lemma runLatchG_done (resolver rejecter : Machine → JsVal → Machine)
    (m : Machine) (cs : List CallKind) :
    runLatchG resolver rejecter (true, m) cs = (true, m) := by
  induction cs with
  | nil => rfl
  | cons c cs ih => simp [runLatchG, ih]

lemma runLatchG_single (resolver rejecter : Machine → JsVal → Machine)
    (m : Machine) (c : CallKind) :
    runLatchG resolver rejecter (false, m) [c]
      = (true, match c with
          | .succeedCall v => resolver m v
          | .failCall r => rejecter m r) := by
  cases c <;> simp [runLatchG]

lemma runLatchG_first (resolver rejecter : Machine → JsVal → Machine)
    (m : Machine) (c : CallKind) (cs : List CallKind) :
    runLatchG resolver rejecter (false, m) (c :: cs)
      = runLatchG resolver rejecter (false, m) [c] := by
  cases c <;> simp [runLatchG, runLatchG_done]

/-- C1.  The two completion callbacks handed to a start routine are the
latched pair built by doResolve around a shared done flag.  First conjunct:
once the latch is closed (after the first effective call), any further
sequence of succeed / fail calls, from any caller, returns with the machine
unchanged, so no state and no stored outcome of any future ever changes.
Second conjunct: a call sequence starting from the open latch has exactly
the effect of its first call alone.  Stated for every resolver / rejecter
pair, hence for every future and fuel. -/
theorem settle_once_latch (resolver rejecter : Machine → JsVal → Machine)
    (m : Machine) (c : CallKind) (cs : List CallKind) :
    runLatchG resolver rejecter (true, m) cs = (true, m) ∧
    runLatchG resolver rejecter (false, m) (c :: cs)
      = runLatchG resolver rejecter (false, m) [c] :=
  ⟨runLatchG_done resolver rejecter m cs,
   runLatchG_first resolver rejecter m c cs⟩

/-- C10.  A start routine that first calls a completion callback and then
raises synchronously behaves exactly like the routine that only made that
first call: the latch is already closed, so the trailing
if (!done and res is IS_ERROR) branch of doResolve discards the raise; the
constructed future keeps the outcome of the first call, nothing is converted
into a rejection, and nothing escapes to the caller of the constructor. -/
theorem late_exception_discarded (fuel : Nat) (tb : Nat → FnBehavior)
    (m : Machine) (c : CallKind) (cs : List CallKind) (e : JsVal) :
    newPromiseF fuel tb m { calls := c :: cs, thenThrows := some e }
      = newPromiseF fuel tb m { calls := [c], thenThrows := none } := by
  simp only [newPromiseF, doResolveF, doResolveG]
  rw [runLatchG_first]
  cases c <;> simp [runLatchG_single]

lemma setRec_heap_self (m : Machine) (s : Nat) (r : PromiseRec) :
    (setRec m s r).heap s = r := by
  simp [setRec]

lemma derefA_not3 (fuel : Nat) (m : Machine) (s : Nat)
    (h : (m.heap s).state ≠ 3) : derefA fuel m s = s := by
  cases fuel with
  | zero => rfl
  | succ f => simp [derefA, h]

lemma handleM_settled (fuel : Nat) (m : Machine) (s : Nat) (d : Handler)
    (h : (m.heap s).state = 1 ∨ (m.heap s).state = 2) :
    handleM fuel m s d = { m with queue := m.queue ++ [(s, d)] } := by
  have h3 : (m.heap s).state ≠ 3 := by rcases h with h | h <;> omega
  have h0 : ¬ (m.heap s).state = 0 := by rcases h with h | h <;> omega
  simp only [handleM, derefA_not3 fuel m s h3, if_neg h0]

lemma foldl_handleM_heap (ds : List Handler) (fuel : Nat) (m : Machine) (s : Nat)
    (h : (m.heap s).state = 1 ∨ (m.heap s).state = 2) :
    (ds.foldl (fun acc d => handleM fuel acc s d) m).heap = m.heap := by
  induction ds generalizing m with
  | nil => rfl
  | cons d ds ih =>
    rw [List.foldl_cons, handleM_settled fuel m s d h]
    exact ih { m with queue := m.queue ++ [(s, d)] } h

lemma finaleM_heap_at (fuel : Nat) (m : Machine) (s : Nat)
    (h : (m.heap s).state = 1 ∨ (m.heap s).state = 2) :
    ((finaleM fuel m s).heap s).state = (m.heap s).state ∧
    ((finaleM fuel m s).heap s).value = (m.heap s).value := by
  unfold finaleM
  by_cases h0 : (m.heap s).deferredState = 0
  · simp [h0]
  · have hfold := foldl_handleM_heap (m.heap s).deferreds fuel m s h
    simp [if_neg h0, setRec_heap_self, hfold]

lemma rejectM_at (fuel : Nat) (m : Machine) (s : Nat) (r : JsVal) :
    stateOf (rejectM fuel m s r) s = 2 ∧ valueOf (rejectM fuel m s r) s = r := by
  unfold rejectM stateOf valueOf
  have h : ((setRec m s { m.heap s with state := 2, value := r }).heap s).state = 1 ∨
      ((setRec m s { m.heap s with state := 2, value := r }).heap s).state = 2 := by
    rw [setRec_heap_self]; exact Or.inr rfl
  have := finaleM_heap_at fuel (setRec m s { m.heap s with state := 2, value := r }) s h
  rw [this.1, this.2, setRec_heap_self]
  exact ⟨rfl, rfl⟩

lemma fulfillM_at (fuel : Nat) (m : Machine) (s : Nat) (v : JsVal) :
    stateOf (fulfillM fuel m s v) s = 1 ∧ valueOf (fulfillM fuel m s v) s = v := by
  unfold fulfillM stateOf valueOf
  have h : ((setRec m s { m.heap s with state := 1, value := v }).heap s).state = 1 ∨
      ((setRec m s { m.heap s with state := 1, value := v }).heap s).state = 2 := by
    rw [setRec_heap_self]; exact Or.inl rfl
  have := finaleM_heap_at fuel (setRec m s { m.heap s with state := 1, value := v }) s h
  rw [this.1, this.2, setRec_heap_self]
  exact ⟨rfl, rfl⟩

/-- C2.  Resolving a future with itself takes the very first branch of
resolve: it rejects the future with the self resolution TypeError.  The
future ends rejected (state 2), never fulfilled, for every machine, every
promise and every positive fuel, and the reduction uses no recursive call,
so nothing loops; the model returns a machine rather than propagating an
exception, mirroring that resolve converts the error into a rejection
instead of raising it at the caller. -/
theorem resolve_self_rejects (fuel : Nat) (tb : Nat → FnBehavior)
    (m : Machine) (s : Nat) :
    stateOf (resolveF (fuel + 1) tb m s (.promiseV s)) s = 2 ∧
    valueOf (resolveF (fuel + 1) tb m s (.promiseV s)) s
      = .typeErrorV "A promise cannot be resolved with itself." := by
  have hres : resolveF (fuel + 1) tb m s (.promiseV s)
      = rejectM (fuel + 1) m s
          (.typeErrorV "A promise cannot be resolved with itself.") := by
    simp [resolveF]
  rw [hres]
  exact rejectM_at (fuel + 1) m s _

/-- C7.  Promise.resolve returns a value that is already a Promise instance
unchanged, whatever its state, and is therefore idempotent: feeding the
promise produced by a first call back in returns the same promise and
leaves the machine untouched. -/
theorem promiseResolve_identity (fuel : Nat) (tb : Nat → FnBehavior)
    (m : Machine) (v : JsVal) :
    (∀ id : Nat, promiseResolve fuel tb m (.promiseV id) = (m, id)) ∧
    promiseResolve fuel tb (promiseResolve fuel tb m v).1
        (.promiseV (promiseResolve fuel tb m v).2)
      = promiseResolve fuel tb m v := by
  constructor
  · intro id; rfl
  · rfl

lemma resolveF_plain (fuel : Nat) (tb : Nat → FnBehavior) (m : Machine)
    (s : Nat) (v : JsVal) (h : isPlainish v = true) :
    resolveF (fuel + 1) tb m s v = fulfillM (fuel + 1) m s v := by
  cases v with
  | promiseV j => simp [isPlainish] at h
  | objV tk =>
    cases tk with
    | absentThen => simp [resolveF]
    | throwsOnRead msg => simp [isPlainish] at h
    | callableThen code => simp [isPlainish] at h
  | undef => simp [resolveF]
  | nullV => simp [resolveF]
  | boolV b => simp [resolveF]
  | numV n => simp [resolveF]
  | strV t => simp [resolveF]
  | arrV es => simp [resolveF]
  | typeErrorV msg => simp [resolveF]
  | aggregateErrorV msg es => simp [resolveF]
  | recordV st p => simp [resolveF]

/-- C6.  Exceptions from a registered handler are contained.  The scheduled
handleResolved task picks the matching handler for the settled state; when
the handler raises (tryCallOne reports IS_ERROR), the downstream future of
the handler is rejected with exactly the raised reason, and the model keeps
running (the raise never escapes the scheduled callback); when the handler
returns normally, the downstream future is resolved with the returned value
(stated for plain return values, where resolution is direct fulfillment). -/
theorem handler_exceptions_contained (fuel : Nat) (tb : Nat → FnBehavior)
    (m : Machine) (s : Nat) (d : Handler) (cb : HandlerFn) (e rv : JsVal) :
    (stateOf m s = 1 → d.onFulfilled = some cb →
      (cb (valueOf m s) = .error e →
        stateOf (runTask (fuel + 1) tb m (s, d)) d.promise = 2 ∧
        valueOf (runTask (fuel + 1) tb m (s, d)) d.promise = e) ∧
      (cb (valueOf m s) = .ok rv → isPlainish rv = true →
        stateOf (runTask (fuel + 1) tb m (s, d)) d.promise = 1 ∧
        valueOf (runTask (fuel + 1) tb m (s, d)) d.promise = rv)) ∧
    (stateOf m s = 2 → d.onRejected = some cb →
      (cb (valueOf m s) = .error e →
        stateOf (runTask (fuel + 1) tb m (s, d)) d.promise = 2 ∧
        valueOf (runTask (fuel + 1) tb m (s, d)) d.promise = e) ∧
      (cb (valueOf m s) = .ok rv → isPlainish rv = true →
        stateOf (runTask (fuel + 1) tb m (s, d)) d.promise = 1 ∧
        valueOf (runTask (fuel + 1) tb m (s, d)) d.promise = rv)) := by
  unfold stateOf valueOf
  constructor
  · intro h1 h2
    constructor
    · intro h3
      have hrun : runTask (fuel + 1) tb m (s, d) = rejectM (fuel + 1) m d.promise e := by
        unfold runTask
        simp [h1, h2, h3]
      rw [hrun]
      exact rejectM_at (fuel + 1) m d.promise e
    · intro h3 h4
      have hrun : runTask (fuel + 1) tb m (s, d)
          = resolveF (fuel + 1) tb m d.promise rv := by
        unfold runTask
        simp [h1, h2, h3]
      rw [hrun, resolveF_plain fuel tb m d.promise rv h4]
      exact fulfillM_at (fuel + 1) m d.promise rv
  · intro h1 h2
    have hne : ¬ (m.heap s).state = 1 := by omega
    constructor
    · intro h3
      have hrun : runTask (fuel + 1) tb m (s, d) = rejectM (fuel + 1) m d.promise e := by
        unfold runTask
        simp [hne, h2, h3]
      rw [hrun]
      exact rejectM_at (fuel + 1) m d.promise e
    · intro h3 h4
      have hrun : runTask (fuel + 1) tb m (s, d)
          = resolveF (fuel + 1) tb m d.promise rv := by
        unfold runTask
        simp [hne, h2, h3]
      rw [hrun, resolveF_plain fuel tb m d.promise rv h4]
      exact fulfillM_at (fuel + 1) m d.promise rv

/-- C9.  A then argument that is present but not callable (any plain value,
for example a string or a number) is nulled out by the typeof check in the
Handler constructor, so then builds exactly the handler it builds when the
argument is omitted, registers an identical continuation, and the scheduled
task takes the missing-callback branch: a fulfilled receiver passes its
value through to the returned future unchanged (stated for plain stored
values), a rejected receiver passes its reason through verbatim. -/
theorem noncallable_handlers_passthrough (fuel : Nat) (tb : Nat → FnBehavior)
    (m : Machine) (s res : Nat) (v w : JsVal) :
    (mkHandler (.value v) (.value w) res = mkHandler .omitted .omitted res) ∧
    (thenM fuel m s (.value v) (.value w) = thenM fuel m s .omitted .omitted) ∧
    (stateOf m s = 1 → isPlainish (valueOf m s) = true →
      stateOf (runTask (fuel + 1) tb m (s, mkHandler (.value v) (.value w) res)) res = 1 ∧
      valueOf (runTask (fuel + 1) tb m (s, mkHandler (.value v) (.value w) res)) res
        = valueOf m s) ∧
    (stateOf m s = 2 →
      stateOf (runTask (fuel + 1) tb m (s, mkHandler (.value v) (.value w) res)) res = 2 ∧
      valueOf (runTask (fuel + 1) tb m (s, mkHandler (.value v) (.value w) res)) res
        = valueOf m s) := by
  refine ⟨rfl, rfl, ?_, ?_⟩
  · intro h1 h2
    have hrun : runTask (fuel + 1) tb m (s, mkHandler (.value v) (.value w) res)
        = resolveF (fuel + 1) tb m res (m.heap s).value := by
      unfold runTask mkHandler toCb
      simp [stateOf] at h1
      simp [h1]
    unfold stateOf valueOf
    rw [hrun, resolveF_plain fuel tb m res (m.heap s).value h2]
    exact fulfillM_at (fuel + 1) m res (m.heap s).value
  · intro h1
    have hne : ¬ (m.heap s).state = 1 := by simp [stateOf] at h1; omega
    have hrun : runTask (fuel + 1) tb m (s, mkHandler (.value v) (.value w) res)
        = rejectM (fuel + 1) m res (m.heap s).value := by
      unfold runTask mkHandler toCb
      simp [hne]
    unfold stateOf valueOf
    rw [hrun]
    exact rejectM_at (fuel + 1) m res (m.heap s).value

/-- C8.  Promise.race wires every input i as
Promise.resolve(input).then(resolve, reject), so settlement events can only
come from inputs; with an empty input array the forEach registers nothing,
no event is ever possible, and the output latch stays pending for every
valid schedule.  Second conjunct: registering a waiter on a pending promise
only stores the deferred and schedules nothing, so no waiter of the forever
pending race output is ever dispatched. -/
theorem race_empty_never_settles (evs : List (Nat × POutcome)) (fuel : Nat)
    (m : Machine) (s : Nat) (d : Handler) :
    ((∀ e ∈ evs, e.1 < ([] : List JsVal).length) → raceRunE [] evs = none) ∧
    (stateOf m s = 0 → (handleM fuel m s d).queue = m.queue) := by
  constructor
  · intro h
    match evs with
    | [] => rfl
    | e :: es =>
      have := h e (List.mem_cons_self e es)
      simp at this
  · intro h
    have h' : (m.heap s).state = 0 := h
    have h3 : (m.heap s).state ≠ 3 := by omega
    simp only [handleM, derefA_not3 fuel m s h3]
    rw [if_pos h']
    split
    · simp [setRec]
    · split <;> simp [setRec]

lemma allStep_keeps_settled (st : AllState) (ev : Nat × POutcome) (o : POutcome)
    (h : st.settled = some o) : (allStep st ev).settled = some o := by
  rcases ev with ⟨i, oc⟩
  cases oc with
  | fulfilledO v =>
    simp only [allStep, allRes]
    split
    · simp [latchSettle, h]
    · simp [h]
  | rejectedO r => simp [allStep, allReject, latchSettle, h]

lemma foldl_allStep_keeps (evs : List (Nat × POutcome)) (st : AllState)
    (o : POutcome) (h : st.settled = some o) :
    (evs.foldl allStep st).settled = some o := by
  induction evs generalizing st with
  | nil => exact h
  | cons ev evs ih => exact ih _ (allStep_keeps_settled st ev o h)

lemma foldl_allStep_fulfilled_prefix (evs : List (Nat × POutcome)) :
    ∀ st : AllState, (∀ e ∈ evs, ∃ v, e.2 = POutcome.fulfilledO v) →
    st.settled = none → evs.length < st.remaining →
    (evs.foldl allStep st).settled = none ∧
    (evs.foldl allStep st).remaining = st.remaining - evs.length := by
  induction evs with
  | nil => intro st _ hn _; exact ⟨hn, by simp⟩
  | cons ev evs ih =>
    intro st hf hn hr
    obtain ⟨v, hv⟩ := hf ev (List.mem_cons_self ev evs)
    have hrem : ¬ st.remaining - 1 = 0 := by
      simp at hr; omega
    have hstep : allStep st ev
        = { st with args := st.args.set ev.1 v, remaining := st.remaining - 1 } := by
      rcases ev with ⟨i, oc⟩
      simp at hv
      subst hv
      simp [allStep, allRes, hrem]
    rw [List.foldl_cons, hstep]
    have hr' : evs.length < st.remaining - 1 := by simp at hr; omega
    have := ih { st with args := st.args.set ev.1 v, remaining := st.remaining - 1 }
      (fun e he => hf e (List.mem_cons_of_mem ev he)) hn hr'
    refine ⟨this.1, ?_⟩
    rw [this.2]
    simp
    omega

lemma foldl_allRes_complete (σ : List Nat) (vs : List JsVal) :
    ∀ st : AllState, σ ≠ [] → st.settled = none →
    st.args.length = vs.length →
    (∀ i ∈ σ, i < vs.length) → st.remaining = σ.length →
    (∀ i, i < vs.length → i ∉ σ → st.args[i]? = vs[i]?) →
    (σ.foldl (fun acc i => allRes acc i (vs.getD i JsVal.undef)) st).settled
      = some (POutcome.fulfilledO (.arrV vs)) := by
  induction σ with
  | nil => intro st hne _ _ _ _ _; exact absurd rfl hne
  | cons j σ ih =>
    intro st _ hnone hlen hmem hrem hargs
    rw [List.foldl_cons]
    have hjlt : j < vs.length := hmem j (List.mem_cons_self j σ)
    have hjlt' : j < st.args.length := by omega
    have hgetDj : vs.getD j JsVal.undef = vs[j] := by
      simp [List.getD_eq_getElem?_getD, List.getElem?_eq_getElem hjlt]
    by_cases hσ : σ = []
    · subst hσ
      have hrem1 : st.remaining - 1 = 0 := by
        rw [hrem]; rfl
      have hset : st.args.set j (vs.getD j JsVal.undef) = vs := by
        apply List.ext_getElem?
        intro i
        by_cases hij : i = j
        · subst hij
          rw [List.getElem?_set_self hjlt', hgetDj, List.getElem?_eq_getElem hjlt]
        · rw [List.getElem?_set_ne (fun hh => hij hh.symm)]
          by_cases hi : i < vs.length
          · exact hargs i hi (by simp [hij])
          · rw [List.getElem?_eq_none (by omega), List.getElem?_eq_none (by omega)]
      simp only [List.foldl_nil]
      rw [hgetDj] at hset ⊢
      simp [allRes, hrem1, hset, latchSettle, hnone]
    · have hrem1 : st.remaining - 1 = σ.length := by
        rw [hrem]; simp
      have hrem1ne : ¬ st.remaining - 1 = 0 := by
        rw [hrem1]
        simp [hσ]
      have hstep : allRes st j (vs.getD j JsVal.undef)
          = { st with args := st.args.set j (vs.getD j JsVal.undef),
                      remaining := st.remaining - 1 } := by
        simp [allRes, hrem1ne]
      rw [hstep]
      apply ih
      · exact hσ
      · exact hnone
      · simp [hlen]
      · exact fun i hi => hmem i (List.mem_cons_of_mem j hi)
      · exact hrem1
      · intro i hi hnotin
        by_cases hij : i = j
        · subst hij
          rw [List.getElem?_set_self hjlt', hgetDj, List.getElem?_eq_getElem hjlt]
        · rw [List.getElem?_set_ne (fun hh => hij hh.symm)]
          refine hargs i hi ?_
          intro hmem2
          rcases List.mem_cons.mp hmem2 with hh | hh
          · exact hij hh
          · exact hnotin hh

/-- C3.  Promise.all over a settlement schedule.  First conjunct: all on the
empty input resolves immediately with the empty array (the synchronous
prologue of the executor).  Second conjunct: when every input fulfills, in
any real-time completion order (any permutation of the input indices), the
output fulfills with the list of fulfillment values in input order.  Third
conjunct: a complete schedule whose first rejection event carries reason r
makes the output reject with exactly r, regardless of what the later events
(including further rejections) do. -/
theorem promiseAll_spec (xs : List JsVal) (σ : List Nat) (vs : List JsVal)
    (evs1 evs2 : List (Nat × POutcome)) (j : Nat) (r : JsVal) :
    ((allRunE [] []).settled = some (.fulfilledO (.arrV []))) ∧
    (σ.Perm (List.range xs.length) → vs.length = xs.length →
      (allRunE xs (σ.map fun i =>
          (i, POutcome.fulfilledO (vs.getD i JsVal.undef)))).settled
        = some (.fulfilledO (.arrV vs))) ∧
    (xs ≠ [] → evs1.length + 1 + evs2.length = xs.length →
      (∀ e ∈ evs1, ∃ v, e.2 = POutcome.fulfilledO v) →
      (allRunE xs (evs1 ++ (j, POutcome.rejectedO r) :: evs2)).settled
        = some (.rejectedO r)) := by
  refine ⟨rfl, ?_, ?_⟩
  · intro hperm hlen
    unfold allRunE
    rw [List.foldl_map]
    by_cases hxs : xs.length = 0
    · have hσlen : σ.length = 0 := by
        rw [hperm.length_eq, List.length_range, hxs]
      have hσ : σ = [] := List.length_eq_zero.mp hσlen
      have hvs : vs = [] := List.length_eq_zero.mp (by omega)
      subst hσ
      subst hvs
      simp [allInit, hxs]
    · have hinit : (allInit xs).settled = none := by simp [allInit, hxs]
      have hargs : (allInit xs).args = xs := by simp [allInit, hxs]
      have hrem : (allInit xs).remaining = xs.length := by simp [allInit, hxs]
      have hσne : σ ≠ [] := by
        intro hh
        rw [hh] at hperm
        have := hperm.length_eq
        simp [List.length_range] at this
        omega
      apply foldl_allRes_complete σ vs (allInit xs) hσne hinit
      · rw [hargs]; omega
      · intro i hi
        have : i ∈ List.range xs.length := hperm.mem_iff.mp hi
        rw [List.mem_range] at this
        omega
      · rw [hrem, hperm.length_eq, List.length_range]
      · intro i hi hnot
        exfalso
        apply hnot
        apply hperm.mem_iff.mpr
        rw [List.mem_range]
        omega
  · intro hne hlen hf
    unfold allRunE
    rw [List.foldl_append, List.foldl_cons]
    have hxs : ¬ xs.length = 0 := by
      intro hh
      exact hne (List.length_eq_zero.mp hh)
    have hinit : (allInit xs).settled = none := by simp [allInit, hxs]
    have hrem : (allInit xs).remaining = xs.length := by simp [allInit, hxs]
    have hpre := foldl_allStep_fulfilled_prefix evs1 (allInit xs) hf hinit
      (by rw [hrem]; omega)
    have hrej : (allStep (evs1.foldl allStep (allInit xs)) (j, POutcome.rejectedO r)).settled
        = some (.rejectedO r) := by
      simp [allStep, allReject, latchSettle, hpre.1]
    exact foldl_allStep_keeps evs2 _ _ hrej

/-- C4 evidence.  First conjunct: any on the empty input rejects immediately
with an AggregateError carrying zero reasons, as the claim says.  Second
conjunct, the failing input: two inputs whose eventual rejection reasons in
input order are the strings a (input 0) and b (input 1), with input 1
rejecting first in real time.  rejectionCheck pushes reasons in arrival
order, so the aggregate carries the list b then a, the completion order,
while the claim requires the input order a then b. -/
theorem promiseAny_order_bug :
    (anyRunE 0 []).settled
      = some (.rejectedO (.aggregateErrorV "All promises were rejected" [])) ∧
    (anyRunE 2 [(1, .rejectedO (.strV "b")), (0, .rejectedO (.strV "a"))]).settled
      = some (.rejectedO (.aggregateErrorV "All promises were rejected"
          [.strV "b", .strV "a"])) :=
  ⟨rfl, rfl⟩

/-- C5 evidence.  The failing input: allSettled applied to a one element
sequence whose only element is an object with a raising then getter.  The
synchronous map over mapAllSettled reads item.then with no try/catch around
it, so the raise escapes Promise.allSettled itself instead of ever producing
the one rejected record the claim requires. -/
theorem allSettled_throw_bug :
    allSettledMapD [.objV (.throwsOnRead "boom")] = .error (.strV "boom") :=
  rfl

theorem promiseAll_spec_witness :
    ([1, 0] : List Nat).Perm (List.range 2) ∧
    ([JsVal.numV 10, JsVal.numV 20] : List JsVal).length
      = ([JsVal.promiseV 7, JsVal.promiseV 8] : List JsVal).length ∧
    (allRunE [JsVal.promiseV 7, JsVal.promiseV 8]
       (([1, 0] : List Nat).map fun i =>
         (i, POutcome.fulfilledO ([JsVal.numV 10, JsVal.numV 20].getD i JsVal.undef)))).settled
      = some (.fulfilledO (.arrV [JsVal.numV 10, JsVal.numV 20])) ∧
    (allRunE [JsVal.promiseV 7, JsVal.promiseV 8]
       ([] ++ (1, POutcome.rejectedO (.strV "e")) :: [(0, POutcome.fulfilledO JsVal.undef)])).settled
      = some (.rejectedO (.strV "e")) := by
  refine ⟨by decide, by decide, ?_, ?_⟩
  · exact (promiseAll_spec [JsVal.promiseV 7, JsVal.promiseV 8] [1, 0]
      [JsVal.numV 10, JsVal.numV 20] [] [] 0 JsVal.undef).2.1 (by decide) (by decide)
  · exact (promiseAll_spec [JsVal.promiseV 7, JsVal.promiseV 8] [1, 0]
      [JsVal.numV 10, JsVal.numV 20] [] [(0, POutcome.fulfilledO JsVal.undef)]
      1 (.strV "e")).2.2 (List.cons_ne_nil _ _) (by decide) (by simp)

theorem handler_exceptions_contained_witness :
    stateOf es6InitM 0 = 1 ∧
    cbBoom (valueOf es6InitM 0) = .error (.strV "boom") ∧
    stateOf (runTask 1 tb0 es6InitM (0, dBoom)) 9 = 2 ∧
    valueOf (runTask 1 tb0 es6InitM (0, dBoom)) 9 = .strV "boom" := by
  have h := ((handler_exceptions_contained 0 tb0 es6InitM 0 dBoom cbBoom
      (.strV "boom") JsVal.undef).1 rfl rfl).1 rfl
  exact ⟨rfl, rfl, h.1, h.2⟩

theorem noncallable_handlers_passthrough_witness :
    stateOf es6InitM 0 = 1 ∧
    isPlainish (valueOf es6InitM 0) = true ∧
    stateOf (runTask 1 tb0 es6InitM
      (0, mkHandler (.value (.strV "x")) (.value (.numV 5)) 9)) 9 = 1 ∧
    valueOf (runTask 1 tb0 es6InitM
      (0, mkHandler (.value (.strV "x")) (.value (.numV 5)) 9)) 9
      = valueOf es6InitM 0 := by
  have h := (noncallable_handlers_passthrough 0 tb0 es6InitM 0 9
      (.strV "x") (.numV 5)).2.2.1 rfl rfl
  exact ⟨rfl, rfl, h.1, h.2⟩

theorem race_empty_never_settles_witness :
    (∀ e ∈ ([] : List (Nat × POutcome)), e.1 < ([] : List JsVal).length) ∧
    raceRunE [] [] = none ∧
    stateOf es6InitM 7 = 0 ∧
    (handleM 1 es6InitM 7 { onFulfilled := none, onRejected := none, promise := 8 }).queue
      = es6InitM.queue := by
  refine ⟨by simp, ?_, rfl, ?_⟩
  · exact (race_empty_never_settles [] 1 es6InitM 7
      { onFulfilled := none, onRejected := none, promise := 8 }).1 (by simp)
  · exact (race_empty_never_settles [] 1 es6InitM 7
      { onFulfilled := none, onRejected := none, promise := 8 }).2 rfl
